import Mathlib

/-
Verification of the anchored Merkle proof protocol (src/lib.rs, src/prove.rs,
src/setup.rs) against its natural-language specification.

Modelling conventions.

The elliptic-curve group BN254 G1 is cyclic of prime order r.  Following the
spec, the curve/field arithmetic library, the Poseidon hash internals, the
Merkle storage engine and the random source are external collaborators; they
are abstracted as parameters:

* the scalar (exponent) field Fr is an abstract field F;
* a group point is represented by its discrete logarithm with respect to the
  canonical generator (an element of F); the canonical generator G is 1, the
  identity point is 0, point addition is field addition and scalar
  multiplication of a point is field multiplication.  The sampled generators
  H and B are points (field elements) quantified over;
* the affine x-coordinate map of the curve library yields a value of an
  abstract coordinate type K on every non-identity point and nothing on the
  identity (arkworks AffineRepr::x returns None exactly on infinity); the
  Rust code always unwraps it, so the embedding returns an error
  (modelling the panic) on the identity;
* the Poseidon hash (light_poseidon new_circom(n).hash) is a parameter
  pos : List F → F, the arity dispatch being the input length, exactly as in
  the source;
* the field splitter split_fq_to_fr, which is core code, is embedded twice:
  abstractly (a parameter K → F × F) inside the protocol, and concretely on
  the real BN254 moduli for the splitter claim itself;
* ark_std::test_rng() is a deterministic random generator constructed from a
  fixed seed; its stream of sampled scalars is a parameter rng : Nat → F and
  each fresh test_rng() construction restarts the stream, so the first
  sampled scalar of every call is rng 0;
* the rs_merkle engine is abstracted: a built tree is its leaf list, the
  inclusion proof for an index is the index itself, and the root is an
  abstract function of the leaf list.

Rust panics (unwrap / expect on a missing value) are modelled as error
results of an Except.  The error type below mirrors the two failure points
of the source: x-coordinate extraction on the identity point, and the
expect("Leaf not found in tree! ...") in generate_anchored_proof.  The
source has no other failure path; in particular src/setup.rs has no
SetupError and its generator-sampling loop is unbounded.
-/

set_option linter.unusedSectionVars false
set_option maxRecDepth 16000

namespace AnchoredMerkle

/-- Failure modes of the embedded code.  coordFail models a panic of
.x().unwrap() on the identity point; witnessNotEnrolled models the
expect on a failed Merkle leaf search in generate_anchored_proof. -/
inductive PErr where
  | coordFail
  | witnessNotEnrolled
deriving DecidableEq

instance exceptDecEq {ε α : Type} [DecidableEq ε] [DecidableEq α] :
    DecidableEq (Except ε α) := fun a b =>
  match a, b with
  | .error e, .error f =>
    if h : e = f then .isTrue (by rw [h]) else .isFalse (by intro hc; cases hc; exact h rfl)
  | .ok x, .ok y =>
    if h : x = y then .isTrue (by rw [h]) else .isFalse (by intro hc; cases hc; exact h rfl)
  | .error _, .ok _ => .isFalse (by intro hc; cases hc)
  | .ok _, .error _ => .isFalse (by intro hc; cases hc)

/-- External collaborators of the core protocol code, per the spec:
curve x-coordinate extraction, the Poseidon hash family, the field
splitter viewed abstractly, the Merkle root of the storage engine, and
the deterministic test_rng scalar stream. -/
structure Collab (F : Type) (K : Type) where
  pos : List F → F
  X : F → K
  split : K → F × F
  rootFn : List F → Option F
  rng : Nat → F

variable {F K : Type}

/-- Embedding of point.x().unwrap() followed by split_fq_to_fr: the
x-coordinate exists exactly on non-identity points, and unwrapping it on
the identity is the coordFail panic. -/
def xlimbs [Field F] [DecidableEq F] (c : Collab F K) (p : F) : Except PErr (F × F) :=
  if p = 0 then .error .coordFail else .ok (c.split (c.X p))

/-- Canonical generator of the group (G1Affine::generator()), discrete
logarithm 1 in the exponent representation. -/
def canonical_generator (F : Type) [Field F] : F := 1

/-- Domain tag for tree leaves (src/lib.rs LEAVES_POSEIDON_DOMAIN). -/
def LEAVES_POSEIDON_DOMAIN : Nat := 1

/-- Pedersen commitment, src/prove.rs line 12:
commitment = generator_g * witness + generator_h * blinding. -/
def pedersen_commitment [Field F] (g h w r : F) : F := w * g + r * h

/-- Modified commitment, src/prove.rs line 13: commitment * secret. -/
def modified_commitment [Field F] (s cm : F) : F := s * cm

/-- Anchor link point, src/prove.rs lines 16-17: P = generator_g * (secret * witness). -/
def p_point [Field F] (g s w : F) : F := (s * w) * g

/-- Group subtraction of src/prove.rs line 45:
public_blinding = modified_commitment - p. -/
def public_blinding [Field F] (g h s w r : F) : F :=
  modified_commitment s (pedersen_commitment g h w r) - p_point g s w

/-- DLEQ proof bundle (src/lib.rs). -/
structure DLEQProof (F : Type) where
  r_commitment_1 : F
  r_commitment_2 : F
  response : F
deriving DecidableEq

/-- Schnorr proof bundle (src/lib.rs). -/
structure SchnorrProof (F : Type) where
  commitment : F
  response : F
deriving DecidableEq

/-- Full anchored proof bundle (src/lib.rs).  The rs_merkle inclusion
proof object is represented by the leaf index it was generated for, and
the 32-byte big-endian leaf hash by the Poseidon output it encodes (the
encoding of a field element into 32 bytes is injective). -/
structure AnchoredProof (F : Type) where
  commitment : F
  modified_commitment : F
  p_point : F
  leaf_hash : F
  merkle_proof : Nat
  dleq_proof : DLEQProof F
  schnorr_proof : SchnorrProof F
deriving DecidableEq

/-- Proof generation inputs (src/lib.rs).  The tree is its leaf list. -/
structure ProofInput (F : Type) where
  secret : F
  witness : F
  blinding : F
  generator_g : F
  generator_h : F
  generator_b : F
  anchor : F
  tree : List F

/-- Challenge of the DLEQ proof, as recomputed from the four public
points (Hash8 over the split x-coordinates of U, C-modified, R1, R2),
meaningful on non-identity points. -/
def dleq_challenge [Field F] (c : Collab F K) (u cm r1 r2 : F) : F :=
  c.pos [(c.split (c.X u)).1, (c.split (c.X u)).2,
         (c.split (c.X cm)).1, (c.split (c.X cm)).2,
         (c.split (c.X r1)).1, (c.split (c.X r1)).2,
         (c.split (c.X r2)).1, (c.split (c.X r2)).2]

/-- Challenge of the Schnorr proof (Hash4 over the split x-coordinates
of the public point and the commitment R), meaningful on non-identity
points. -/
def schnorr_challenge [Field F] (c : Collab F K) (pk r : F) : F :=
  c.pos [(c.split (c.X pk)).1, (c.split (c.X pk)).2,
         (c.split (c.X r)).1, (c.split (c.X r)).2]

/-- Embedding of generate_dleq_proof (src/prove.rs lines 108-145).  The
nonce is the first scalar drawn from a freshly constructed
ark_std::test_rng(), hence c.rng 0. -/
def generate_dleq_proof [Field F] [DecidableEq F] (c : Collab F K)
    (secret generator1 generator2 public1 public2 : F) : Except PErr (DLEQProof F) :=
  let r := c.rng 0
  let r1_affine := r * generator1
  let r2_affine := r * generator2
  (xlimbs c public1).bind fun u_limbs =>
  (xlimbs c public2).bind fun c_modified_limbs =>
  (xlimbs c r1_affine).bind fun r1_limbs =>
  (xlimbs c r2_affine).bind fun r2_limbs =>
  let challenge := c.pos [u_limbs.1, u_limbs.2,
                          c_modified_limbs.1, c_modified_limbs.2,
                          r1_limbs.1, r1_limbs.2,
                          r2_limbs.1, r2_limbs.2]
  .ok ⟨r1_affine, r2_affine, r + challenge * secret⟩

/-- Embedding of generate_schnorr_proof (src/prove.rs lines 78-106).
The nonce is again the first scalar of a fresh test_rng(), c.rng 0. -/
def generate_schnorr_proof [Field F] [DecidableEq F] (c : Collab F K)
    (secret generator pub : F) : Except PErr (SchnorrProof F) :=
  let r_scalar := c.rng 0
  let r_point := r_scalar * generator
  (xlimbs c pub).bind fun pk_limbs =>
  (xlimbs c r_point).bind fun r_limbs =>
  let challenge := c.pos [pk_limbs.1, pk_limbs.2, r_limbs.1, r_limbs.2]
  .ok ⟨r_point, r_scalar + challenge * secret⟩

/-- First index whose leaf equals the target, the loop of
src/prove.rs lines 35-41. -/
def leafSearchAux [DecidableEq F] (leaf : F) : List F → Nat → Option Nat
  | [], _ => none
  | l :: ls, i => if l = leaf then some i else leafSearchAux leaf ls (i + 1)

/-- Leaf search over the whole tree starting at index 0. -/
def leafSearch [DecidableEq F] (leaf : F) (leaves : List F) : Option Nat :=
  leafSearchAux leaf leaves 0

/-- Option unwrap with a designated panic, modelling expect. -/
def require (o : Option α) (e : PErr) : Except PErr α :=
  match o with
  | some a => .ok a
  | none => .error e

/-- Embedding of generate_anchored_proof (src/prove.rs lines 10-76),
following the source order: commitments, P, leaf hash (x-coordinate
unwraps of the anchor and P), Merkle leaf search with expect,
public_blinding, DLEQ proof, Schnorr proof. -/
def generate_anchored_proof [Field F] [DecidableEq F] (c : Collab F K)
    (inp : ProofInput F) : Except PErr (AnchoredProof F) :=
  let commitment := pedersen_commitment inp.generator_g inp.generator_h inp.witness inp.blinding
  let modC := modified_commitment inp.secret commitment
  let p := p_point inp.generator_g inp.secret inp.witness
  (xlimbs c inp.anchor).bind fun anchor_x_limbs =>
  (xlimbs c p).bind fun p_x_limbs =>
  let leaf := c.pos [(LEAVES_POSEIDON_DOMAIN : F),
                     anchor_x_limbs.1, anchor_x_limbs.2, p_x_limbs.1, p_x_limbs.2]
  (require (leafSearch leaf inp.tree) .witnessNotEnrolled).bind fun leave_index =>
  let pb := modC - p
  (generate_dleq_proof c inp.secret inp.generator_b commitment inp.anchor modC).bind fun dleq =>
  (generate_schnorr_proof c (inp.secret * inp.blinding) inp.generator_h pb).bind fun schnorr =>
  .ok ⟨commitment, modC, p, leaf, leave_index, dleq, schnorr⟩

/-- Embedding of secret_setup (src/setup.rs lines 17-20): the first
scalar of a freshly seeded test_rng — a deterministic value. -/
def secret_setup (c : Collab F K) : F := c.rng 0

/-- Embedding of anchor_setup (src/setup.rs lines 22-24). -/
def anchor_setup [Field F] (secret generator : F) : F := secret * generator

/-- Leaf of the enumerated tree for index x (src/setup.rs lines 36-48):
p = G1Projective::generator() * (x * secret), leaf = Hash5 of the domain
tag, the split anchor coordinate and the split coordinate of p. -/
def tree_leaf [Field F] (c : Collab F K) (al : F × F) (s : F) (x : Nat) : F :=
  c.pos [(LEAVES_POSEIDON_DOMAIN : F), al.1, al.2,
         (c.split (c.X ((x : F) * s * canonical_generator F))).1,
         (c.split (c.X ((x : F) * s * canonical_generator F))).2]

/-- Leaf collection loop of tree_setup, fuelled by the number of
remaining indices, starting at index x. -/
def tree_leaves [Field F] [DecidableEq F] (c : Collab F K) (al : F × F) (s : F) :
    Nat → Nat → Except PErr (List F)
  | 0, _ => .ok []
  | fuel + 1, x =>
    (xlimbs c ((x : F) * s * canonical_generator F)).bind fun pl =>
    (tree_leaves c al s fuel (x + 1)).bind fun rest =>
    .ok (c.pos [(LEAVES_POSEIDON_DOMAIN : F), al.1, al.2, pl.1, pl.2] :: rest)

/-- Embedding of tree_setup (src/setup.rs lines 26-53): x runs from 1
to 2 ^ range inclusive; the result is the ordered leaf list handed to
MerkleTree::from_leaves. -/
def tree_setup [Field F] [DecidableEq F] (c : Collab F K) (range : Nat)
    (anchor s : F) : Except PErr (List F) :=
  (xlimbs c anchor).bind fun al => tree_leaves c al s (2 ^ range) 1

/-- Acceptance test of one candidate of the generator-sampling loop
(src/setup.rs lines 64-66): the digest decodes to a point
(from_random_bytes yields Some) and the point is not the identity. -/
def is_accepted [Field F] [DecidableEq F] (o : Option F) : Bool :=
  match o with
  | some point => decide (point ≠ 0)
  | none => false

/-- Embedding of sample_nums_generator (src/setup.rs lines 55-71).  The
candidate point decoded from Sha256(seed, counter) is the collaborator
stream cand (none when from_random_bytes rejects the digest); the loop
returns the first accepted candidate and otherwise increments the
counter.  The Rust loop is unbounded; the fuel argument only observes a
finite prefix of the iteration: a none result means the loop is still
running after that many iterations, not an error (the source has no
SetupError and no cap). -/
def sample_nums_generator [Field F] [DecidableEq F] (cand : Nat → Option F) :
    Nat → Nat → Option F
  | 0, _ => none
  | fuel + 1, counter =>
    if is_accepted (cand counter) then cand counter
    else sample_nums_generator cand fuel (counter + 1)

/-- Embedding of generator_setup (src/setup.rs lines 10-15): the
canonical base point plus two sampled points, one per fixed seed
(cand0 models the candidate stream for seed [0;32], cand1 for seed
[1;32]). -/
def generator_setup [Field F] [DecidableEq F] (cand0 cand1 : Nat → Option F)
    (fuel : Nat) : Option (F × F × F) :=
  match sample_nums_generator cand0 fuel 0, sample_nums_generator cand1 fuel 0 with
  | some second, some third => some (canonical_generator F, second, third)
  | _, _ => none

/-- Modelled from the spec: src/lib.rs declares pub mod verify but
src/verify.rs is not among the sources.  DLEQ check of spec section
4.5(b): recompute e from (U, C-modified, R1, R2); require
B^z == R1 * U^e and C^z == R2 * (C-modified)^e, C the bundle commitment.
Verification is total per spec section 7, so an identity point (whose
coordinate cannot be extracted) yields reject rather than a fault. -/
def verify_dleq [Field F] [DecidableEq F] (c : Collab F K)
    (genB genC u cm : F) (prf : DLEQProof F) : Bool :=
  match xlimbs c u, xlimbs c cm,
        xlimbs c prf.r_commitment_1, xlimbs c prf.r_commitment_2 with
  | .ok ul, .ok cl, .ok r1l, .ok r2l =>
    let e := c.pos [ul.1, ul.2, cl.1, cl.2, r1l.1, r1l.2, r2l.1, r2l.2]
    decide (prf.response * genB = prf.r_commitment_1 + e * u) &&
    decide (prf.response * genC = prf.r_commitment_2 + e * cm)
  | _, _, _, _ => false

/-- Modelled from the spec: Schnorr check of spec section 4.5(c) for the
missing verifier: recompute public_blinding = C-modified minus P,
recompute the challenge from (public_blinding, R), require
H^z == R * public_blinding^e; total, rejecting on identity points. -/
def verify_schnorr [Field F] [DecidableEq F] (c : Collab F K)
    (genH cm p : F) (prf : SchnorrProof F) : Bool :=
  let pb := cm - p
  match xlimbs c pb, xlimbs c prf.commitment with
  | .ok pbl, .ok rl =>
    let e := c.pos [pbl.1, pbl.2, rl.1, rl.2]
    decide (prf.response * genH = prf.commitment + e * pb)
  | _, _ => false

/-- Leaf hash derived for a proof input by generate_anchored_proof:
Hash5 of the domain tag, the split anchor x-coordinate and the split
x-coordinate of P. -/
def honest_leaf [Field F] (c : Collab F K) (inp : ProofInput F) : F :=
  c.pos [(LEAVES_POSEIDON_DOMAIN : F),
         (c.split (c.X inp.anchor)).1, (c.split (c.X inp.anchor)).2,
         (c.split (c.X (p_point inp.generator_g inp.secret inp.witness))).1,
         (c.split (c.X (p_point inp.generator_g inp.secret inp.witness))).2]

/-- Closed form of the bundle emitted on the success path of
generate_anchored_proof, with i the index found by the leaf search. -/
def honest_bundle [Field F] (c : Collab F K) (inp : ProofInput F) (i : Nat) :
    AnchoredProof F :=
  let cm := pedersen_commitment inp.generator_g inp.generator_h inp.witness inp.blinding
  let mc := modified_commitment inp.secret cm
  let p := p_point inp.generator_g inp.secret inp.witness
  { commitment := cm, modified_commitment := mc, p_point := p,
    leaf_hash := honest_leaf c inp, merkle_proof := i,
    dleq_proof :=
      ⟨c.rng 0 * inp.generator_b, c.rng 0 * cm,
       c.rng 0 + dleq_challenge c inp.anchor mc
         (c.rng 0 * inp.generator_b) (c.rng 0 * cm) * inp.secret⟩,
    schnorr_proof :=
      ⟨c.rng 0 * inp.generator_h,
       c.rng 0 + schnorr_challenge c (mc - p) (c.rng 0 * inp.generator_h) *
         (inp.secret * inp.blinding)⟩ }

/-- Little-endian byte list of a natural number, fixed width (the
arkworks BigInteger256 to_bytes_le yields exactly 32 bytes). -/
def toBytesLE : Nat → Nat → List Nat
  | 0, _ => []
  | w + 1, n => n % 256 :: toBytesLE w (n / 256)

/-- Natural number encoded by a little-endian byte list (the arkworks
from_le_bytes_mod_order reduces this value modulo the field order). -/
def fromBytesLE : List Nat → Nat
  | [] => 0
  | b :: bs => b + 256 * fromBytesLE bs

/-- Order of the BN254 scalar (exponent) field Fr. -/
def bn254_r : Nat :=
  21888242871839275222246405745257275088548364400416034343698204186575808495617

/-- Order of the BN254 base (coordinate) field Fq. -/
def bn254_q : Nat :=
  21888242871839275222246405745257275088696311157297823662689037894645226208583

/-- Concrete BN254 scalar field. -/
abbrev Frc := ZMod bn254_r

/-- Concrete BN254 base field. -/
abbrev Fqc := ZMod bn254_q

instance : NeZero bn254_r := ⟨by decide⟩

instance : NeZero bn254_q := ⟨by decide⟩

/-- Embedding of split_fq_to_fr (src/lib.rs lines 63-76) at its use
site (Fq to Fr on BN254): serialize the canonical representative to 32
little-endian bytes, split after 16 bytes, read each half back modulo
the Fr order. -/
def split_fq_to_fr (x : Fqc) : List Frc :=
  let bytes := toBytesLE 32 x.val
  let low_bytes := bytes.take 16
  let high_bytes := bytes.drop 16
  [((fromBytesLE low_bytes : Nat) : Frc), ((fromBytesLE high_bytes : Nat) : Frc)]

/-- Reconstruction of a coordinate from the two split limbs, as in the
spec and the crate test test_split_reconstruct_math: concatenate the
first 16 little-endian bytes of each limb and read the 32 bytes back
into Fq. -/
def reconstruct_fq (limbs : List Frc) : Fqc :=
  let low_bytes := (toBytesLE 32 (limbs.getD 0 0).val).take 16
  let high_bytes := (toBytesLE 32 (limbs.getD 1 0).val).take 16
  ((fromBytesLE (low_bytes ++ high_bytes) : Nat) : Fqc)

instance : Fact (Nat.Prime 101) := ⟨by norm_num⟩

/-- Concrete scalar field used to instantiate witnesses of the
hypothesis-bearing theorems: the protocol theorems are parametric in
the external arithmetic collaborator, so a small prime field suffices
to evaluate them. -/
abbrev Fw := ZMod 101

/-- Concrete collaborator instance for witnesses: the x-coordinate map
is the representation itself, the splitter pairs it with 0, and the
Poseidon stand-in projects the fourth hash input, which makes the tree
leaves of a small tree pairwise distinct and concretely computable.
The rng stream is constantly 1, a legitimate model of the fixed
test_rng stream. -/
def cEx : Collab Fw Fw where
  pos := fun l => l.getD 3 0
  X := fun p => p
  split := fun k => (k, 0)
  rootFn := fun l => l.head?
  rng := fun _ => 1

/-- Leaves of the concrete tree of range 4 built by cEx: tree_setup
yields exactly the values 1..16. -/
def treeEx4 : List Fw := (List.range 16).map fun i => ((i : Fw) + 1)

/-- Leaves of the concrete tree of range 2 built by cEx. -/
def treeEx2 : List Fw := (List.range 4).map fun i => ((i : Fw) + 1)

/-- Concrete honest proof-generation input over Fw: secret 1, witness 2,
blinding 1, generators (1, 2, 3), anchor 1 * 3, tree of range 2. -/
def inpEx : ProofInput Fw :=
  { secret := 1, witness := 2, blinding := 1,
    generator_g := 1, generator_h := 2, generator_b := 3,
    anchor := 3, tree := treeEx2 }

/-- Bundle produced by generate_anchored_proof on cEx and inpEx. -/
def bundleEx : AnchoredProof Fw :=
  { commitment := 4, modified_commitment := 4, p_point := 2,
    leaf_hash := 2, merkle_proof := 1,
    dleq_proof := { r_commitment_1 := 3, r_commitment_2 := 4, response := 1 },
    schnorr_proof := { commitment := 2, response := 1 } }

/-- Concrete input violating claim C5 as stated: identical to an honest
range-4 run at witness 16 except that the blinding is 0, which makes
public_blinding the identity point and the Schnorr x-coordinate unwrap
panic. -/
def inpEx5 : ProofInput Fw :=
  { secret := 1, witness := 16, blinding := 0,
    generator_g := 1, generator_h := 2, generator_b := 3,
    anchor := 3, tree := treeEx4 }

/-- Concrete input violating claim C10 as stated: secret, witness and
anchor are nonzero and the derived leaf is enrolled, but the zero
blinding still faults the Schnorr coordinate extraction. -/
def inpEx10 : ProofInput Fw :=
  { secret := 1, witness := 1, blinding := 0,
    generator_g := 1, generator_h := 2, generator_b := 3,
    anchor := 3, tree := treeEx2 }

section Lemmas

variable [Field F] [DecidableEq F]

theorem xlimbs_of_ne (c : Collab F K) {p : F} (h : p ≠ 0) :
    xlimbs c p = .ok (c.split (c.X p)) := by
  simp [xlimbs, h]

theorem xlimbs_zero (c : Collab F K) : xlimbs c (0 : F) = .error .coordFail := by
  simp [xlimbs]

theorem generate_dleq_proof_ok (c : Collab F K) (s g1 g2 p1 p2 : F)
    (h1 : p1 ≠ 0) (h2 : p2 ≠ 0)
    (h3 : c.rng 0 * g1 ≠ 0) (h4 : c.rng 0 * g2 ≠ 0) :
    generate_dleq_proof c s g1 g2 p1 p2 =
      .ok ⟨c.rng 0 * g1, c.rng 0 * g2,
           c.rng 0 + dleq_challenge c p1 p2 (c.rng 0 * g1) (c.rng 0 * g2) * s⟩ := by
  simp [generate_dleq_proof, xlimbs, h1, h2, h3, h4, Except.bind, dleq_challenge]

theorem generate_dleq_proof_inv (c : Collab F K) {s g1 g2 p1 p2 : F}
    {prf : DLEQProof F}
    (h : generate_dleq_proof c s g1 g2 p1 p2 = .ok prf) :
    p1 ≠ 0 ∧ p2 ≠ 0 ∧ c.rng 0 * g1 ≠ 0 ∧ c.rng 0 * g2 ≠ 0 ∧
      prf = ⟨c.rng 0 * g1, c.rng 0 * g2,
             c.rng 0 + dleq_challenge c p1 p2 (c.rng 0 * g1) (c.rng 0 * g2) * s⟩ := by
  by_cases h1 : p1 = 0
  · simp [generate_dleq_proof, xlimbs, h1, Except.bind] at h
  by_cases h2 : p2 = 0
  · simp [generate_dleq_proof, xlimbs, h1, h2, Except.bind] at h
  by_cases h3 : c.rng 0 * g1 = 0
  · simp [generate_dleq_proof, xlimbs, h1, h2, h3, Except.bind] at h
  by_cases h4 : c.rng 0 * g2 = 0
  · simp [generate_dleq_proof, xlimbs, h1, h2, h3, h4, Except.bind] at h
  refine ⟨h1, h2, h3, h4, ?_⟩
  rw [generate_dleq_proof_ok c s g1 g2 p1 p2 h1 h2 h3 h4] at h
  exact (Except.ok.inj h).symm

theorem generate_schnorr_proof_ok (c : Collab F K) (s g pub : F)
    (h1 : pub ≠ 0) (h2 : c.rng 0 * g ≠ 0) :
    generate_schnorr_proof c s g pub =
      .ok ⟨c.rng 0 * g, c.rng 0 + schnorr_challenge c pub (c.rng 0 * g) * s⟩ := by
  simp [generate_schnorr_proof, xlimbs, h1, h2, Except.bind, schnorr_challenge]

theorem generate_schnorr_proof_inv (c : Collab F K) {s g pub : F}
    {prf : SchnorrProof F}
    (h : generate_schnorr_proof c s g pub = .ok prf) :
    pub ≠ 0 ∧ c.rng 0 * g ≠ 0 ∧
      prf = ⟨c.rng 0 * g, c.rng 0 + schnorr_challenge c pub (c.rng 0 * g) * s⟩ := by
  by_cases h1 : pub = 0
  · simp [generate_schnorr_proof, xlimbs, h1, Except.bind] at h
  by_cases h2 : c.rng 0 * g = 0
  · simp [generate_schnorr_proof, xlimbs, h1, h2, Except.bind] at h
  refine ⟨h1, h2, ?_⟩
  rw [generate_schnorr_proof_ok c s g pub h1 h2] at h
  exact (Except.ok.inj h).symm

theorem leafSearchAux_of_not_mem (leaf : F) (T : List F) (h : leaf ∉ T) :
    ∀ k, leafSearchAux leaf T k = none := by
  induction T with
  | nil => intro k; rfl
  | cons a ts ih =>
    intro k
    rw [leafSearchAux, if_neg (by rintro rfl; exact h (List.mem_cons_self a ts))]
    exact ih (fun hm => h (List.mem_cons_of_mem a hm)) (k + 1)

theorem leafSearchAux_first (leaf : F) :
    ∀ (T : List F) (i k : Nat), T[i]? = some leaf →
      (∀ j, j < i → T[j]? ≠ some leaf) →
      leafSearchAux leaf T k = some (k + i) := by
  intro T
  induction T with
  | nil => intro i k h _; simp at h
  | cons a ts ih =>
    intro i k hget hfirst
    cases i with
    | zero =>
      simp only [List.getElem?_cons_zero, Option.some.injEq] at hget
      rw [leafSearchAux, if_pos hget, Nat.add_zero]
    | succ m =>
      have ha : ¬ a = leaf := by
        have h0 := hfirst 0 (Nat.succ_pos m)
        simpa using h0
      rw [leafSearchAux, if_neg ha]
      have hr := ih m (k + 1) (by simpa using hget)
        (fun j hj => by
          have := hfirst (j + 1) (Nat.succ_lt_succ hj)
          simpa using this)
      rw [hr]
      congr 1
      omega

theorem leafSearch_nodup (T : List F) (i : Nat) (leaf : F)
    (hnd : T.Nodup) (hget : T[i]? = some leaf) : leafSearch leaf T = some i := by
  have hfirst : ∀ j, j < i → T[j]? ≠ some leaf := by
    intro j hj hc
    obtain ⟨hlt, he⟩ := List.getElem?_eq_some.mp hget
    obtain ⟨hlt2, he2⟩ := List.getElem?_eq_some.mp hc
    have : T[j] = T[i] := by rw [he, he2]
    have := (List.Nodup.getElem_inj_iff hnd).mp this
    omega
  have := leafSearchAux_first leaf T i 0 hget hfirst
  simpa [leafSearch] using this

theorem leafSearch_of_not_mem (leaf : F) (T : List F) (h : leaf ∉ T) :
    leafSearch leaf T = none := leafSearchAux_of_not_mem leaf T h 0

theorem tree_leaves_ok (c : Collab F K) (al : F × F) (s : F) :
    ∀ (fuel x : Nat),
      (∀ j, x ≤ j → j < x + fuel → ((j : F) * s * canonical_generator F) ≠ 0) →
      tree_leaves c al s fuel x =
        .ok ((List.range fuel).map fun i => tree_leaf c al s (x + i)) := by
  intro fuel
  induction fuel with
  | zero => intro x _; simp [tree_leaves]
  | succ n ih =>
    intro x h
    rw [tree_leaves, xlimbs, if_neg (h x le_rfl (by omega))]
    simp only [Except.bind]
    rw [ih (x + 1) (fun j h1 h2 => h j (by omega) (by omega))]
    simp only [Except.bind]
    have hmap : ((List.range (n + 1)).map fun i => tree_leaf c al s (x + i))
        = tree_leaf c al s x ::
          ((List.range n).map fun i => tree_leaf c al s (x + 1 + i)) := by
      rw [List.range_succ_eq_map, List.map_cons, List.map_map]
      simp only [Nat.add_zero]
      congr 1
      apply List.map_congr_left
      intro i _
      simp only [Function.comp_apply]
      congr 1
      omega
    rw [hmap, tree_leaf]

theorem tree_setup_ok (c : Collab F K) (range : Nat) (anchor s : F)
    (hU : anchor ≠ 0)
    (hx : ∀ j : Nat, 1 ≤ j → j ≤ 2 ^ range → ((j : F) * s * canonical_generator F) ≠ 0) :
    tree_setup c range anchor s =
      .ok ((List.range (2 ^ range)).map fun i =>
        tree_leaf c (c.split (c.X anchor)) s (1 + i)) := by
  rw [tree_setup, xlimbs, if_neg hU]
  simp only [Except.bind]
  exact tree_leaves_ok c _ s (2 ^ range) 1 (fun j h1 h2 => hx j h1 (by omega))

theorem is_accepted_iff {o : Option F} :
    is_accepted o = true ↔ ∃ p, o = some p ∧ p ≠ 0 := by
  cases o <;> simp [is_accepted]

theorem sample_none_iff (cand : Nat → Option F) :
    ∀ (fuel ctr : Nat),
      sample_nums_generator cand fuel ctr = none ↔
        ∀ i, i < fuel → is_accepted (cand (ctr + i)) = false := by
  intro fuel
  induction fuel with
  | zero => intro ctr; simp [sample_nums_generator]
  | succ n ih =>
    intro ctr
    rw [sample_nums_generator]
    by_cases hA : is_accepted (cand ctr) = true
    · rw [if_pos hA]
      obtain ⟨p, hp, _⟩ := is_accepted_iff.mp hA
      rw [hp]
      constructor
      · intro h; cases h
      · intro h
        have h0 := h 0 (by omega)
        rw [Nat.add_zero, hA] at h0
        cases h0
    · rw [if_neg hA, ih (ctr + 1)]
      constructor
      · intro h i hi
        cases i with
        | zero =>
          rw [Nat.add_zero]
          exact Bool.eq_false_iff.mpr hA
        | succ m =>
          have := h m (by omega)
          simpa [Nat.add_assoc, Nat.add_comm 1 m] using this
      · intro h i hi
        have := h (i + 1) (by omega)
        simpa [Nat.add_assoc, Nat.add_comm 1 i] using this

theorem sample_some (cand : Nat → Option F) :
    ∀ (fuel ctr : Nat) (p : F),
      sample_nums_generator cand fuel ctr = some p →
      p ≠ 0 ∧ ∃ i, i < fuel ∧ cand (ctr + i) = some p ∧
        ∀ j, j < i → is_accepted (cand (ctr + j)) = false := by
  intro fuel
  induction fuel with
  | zero => intro ctr p h; cases h
  | succ n ih =>
    intro ctr p h
    rw [sample_nums_generator] at h
    by_cases hA : is_accepted (cand ctr) = true
    · rw [if_pos hA] at h
      obtain ⟨q, hq, hqz⟩ := is_accepted_iff.mp hA
      rw [h] at hq
      have hpq : p = q := by cases hq; rfl
      subst hpq
      exact ⟨hqz, 0, by omega, by simpa using h, by omega⟩
    · rw [if_neg hA] at h
      obtain ⟨hp, i, hi, hci, hprev⟩ := ih (ctr + 1) p h
      refine ⟨hp, i + 1, by omega, by
        rw [Nat.add_comm i 1, ← Nat.add_assoc]; exact hci, ?_⟩
      intro j hj
      cases j with
      | zero =>
        rw [Nat.add_zero]
        exact Bool.eq_false_iff.mpr hA
      | succ m =>
        have := hprev m (by omega)
        simpa [Nat.add_assoc, Nat.add_comm 1 m] using this

theorem generate_anchored_proof_ok (c : Collab F K) (inp : ProofInput F) (i : Nat)
    (hU : inp.anchor ≠ 0)
    (hP : p_point inp.generator_g inp.secret inp.witness ≠ 0)
    (hfind : leafSearch (honest_leaf c inp) inp.tree = some i)
    (hM : modified_commitment inp.secret
      (pedersen_commitment inp.generator_g inp.generator_h inp.witness inp.blinding) ≠ 0)
    (hR1 : c.rng 0 * inp.generator_b ≠ 0)
    (hR2 : c.rng 0 *
      pedersen_commitment inp.generator_g inp.generator_h inp.witness inp.blinding ≠ 0)
    (hPB : public_blinding inp.generator_g inp.generator_h
      inp.secret inp.witness inp.blinding ≠ 0)
    (hR : c.rng 0 * inp.generator_h ≠ 0) :
    generate_anchored_proof c inp = .ok (honest_bundle c inp i) := by
  rw [generate_anchored_proof]
  rw [xlimbs_of_ne c hU, xlimbs_of_ne c hP]
  simp only [Except.bind]
  have hleaf : (c.pos [(LEAVES_POSEIDON_DOMAIN : F),
      (c.split (c.X inp.anchor)).1, (c.split (c.X inp.anchor)).2,
      (c.split (c.X (p_point inp.generator_g inp.secret inp.witness))).1,
      (c.split (c.X (p_point inp.generator_g inp.secret inp.witness))).2])
      = honest_leaf c inp := rfl
  rw [hleaf, hfind]
  simp only [require, Except.bind]
  rw [generate_dleq_proof_ok c inp.secret inp.generator_b
      (pedersen_commitment inp.generator_g inp.generator_h inp.witness inp.blinding)
      inp.anchor
      (modified_commitment inp.secret
        (pedersen_commitment inp.generator_g inp.generator_h inp.witness inp.blinding))
      hU hM hR1 hR2]
  simp only [Except.bind]
  have hpb : modified_commitment inp.secret
      (pedersen_commitment inp.generator_g inp.generator_h inp.witness inp.blinding)
      - p_point inp.generator_g inp.secret inp.witness
      = public_blinding inp.generator_g inp.generator_h
          inp.secret inp.witness inp.blinding := rfl
  rw [hpb, generate_schnorr_proof_ok c (inp.secret * inp.blinding) inp.generator_h
      (public_blinding inp.generator_g inp.generator_h inp.secret inp.witness inp.blinding)
      hPB hR]
  simp only [Except.bind]
  rfl

theorem generate_anchored_proof_inv (c : Collab F K) (inp : ProofInput F)
    {bundle : AnchoredProof F}
    (hok : generate_anchored_proof c inp = .ok bundle) :
    inp.anchor ≠ 0 ∧
    p_point inp.generator_g inp.secret inp.witness ≠ 0 ∧
    modified_commitment inp.secret
      (pedersen_commitment inp.generator_g inp.generator_h inp.witness inp.blinding) ≠ 0 ∧
    c.rng 0 * inp.generator_b ≠ 0 ∧
    c.rng 0 *
      pedersen_commitment inp.generator_g inp.generator_h inp.witness inp.blinding ≠ 0 ∧
    public_blinding inp.generator_g inp.generator_h
      inp.secret inp.witness inp.blinding ≠ 0 ∧
    c.rng 0 * inp.generator_h ≠ 0 ∧
    leafSearch (honest_leaf c inp) inp.tree = some bundle.merkle_proof ∧
    bundle = honest_bundle c inp bundle.merkle_proof := by
  by_cases hU : inp.anchor = 0
  · rw [generate_anchored_proof, xlimbs, if_pos hU] at hok
    simp [Except.bind] at hok
  by_cases hP : p_point inp.generator_g inp.secret inp.witness = 0
  · rw [generate_anchored_proof, xlimbs_of_ne c hU] at hok
    simp only [Except.bind] at hok
    rw [xlimbs, if_pos hP] at hok
    simp [Except.bind] at hok
  cases hS : leafSearch (honest_leaf c inp) inp.tree with
  | none =>
    rw [generate_anchored_proof, xlimbs_of_ne c hU, xlimbs_of_ne c hP] at hok
    simp only [Except.bind] at hok
    rw [show (c.pos [(LEAVES_POSEIDON_DOMAIN : F),
      (c.split (c.X inp.anchor)).1, (c.split (c.X inp.anchor)).2,
      (c.split (c.X (p_point inp.generator_g inp.secret inp.witness))).1,
      (c.split (c.X (p_point inp.generator_g inp.secret inp.witness))).2])
      = honest_leaf c inp from rfl, hS] at hok
    simp [require, Except.bind] at hok
  | some i =>
    rw [generate_anchored_proof, xlimbs_of_ne c hU, xlimbs_of_ne c hP] at hok
    simp only [Except.bind] at hok
    rw [show (c.pos [(LEAVES_POSEIDON_DOMAIN : F),
      (c.split (c.X inp.anchor)).1, (c.split (c.X inp.anchor)).2,
      (c.split (c.X (p_point inp.generator_g inp.secret inp.witness))).1,
      (c.split (c.X (p_point inp.generator_g inp.secret inp.witness))).2])
      = honest_leaf c inp from rfl, hS] at hok
    simp only [require, Except.bind] at hok
    cases hD : generate_dleq_proof c inp.secret inp.generator_b
        (pedersen_commitment inp.generator_g inp.generator_h inp.witness inp.blinding)
        inp.anchor
        (modified_commitment inp.secret
          (pedersen_commitment inp.generator_g inp.generator_h inp.witness inp.blinding))
        with
    | error e => rw [hD] at hok; simp [Except.bind] at hok
    | ok dleq =>
      rw [hD] at hok
      simp only [Except.bind] at hok
      obtain ⟨_, hM, hR1, hR2, hDleq⟩ := generate_dleq_proof_inv c hD
      cases hSch : generate_schnorr_proof c (inp.secret * inp.blinding) inp.generator_h
          (modified_commitment inp.secret
            (pedersen_commitment inp.generator_g inp.generator_h inp.witness inp.blinding)
            - p_point inp.generator_g inp.secret inp.witness) with
      | error e => rw [hSch] at hok; simp [Except.bind] at hok
      | ok schnorr =>
        rw [hSch] at hok
        simp only [Except.bind] at hok
        obtain ⟨hPB, hR, hSchnorr⟩ := generate_schnorr_proof_inv c hSch
        have hb : bundle = honest_bundle c inp i := by
          have := Except.ok.inj hok
          rw [← this, hDleq, hSchnorr]
          rfl
        have hidx : bundle.merkle_proof = i := by rw [hb]; rfl
        refine ⟨hU, hP, hM, hR1, hR2, hPB, hR, ?_, ?_⟩
        · rw [hidx]
        · rw [hidx]
          exact hb

theorem public_blinding_eq (g h s w r : F) :
    public_blinding g h s w r = (s * r) * h := by
  simp only [public_blinding, modified_commitment, pedersen_commitment, p_point]
  ring

theorem leafSearchAux_mem (leaf : F) :
    ∀ (T : List F) (k : Nat), leaf ∈ T → ∃ i, leafSearchAux leaf T k = some i := by
  intro T
  induction T with
  | nil => intro k h; cases h
  | cons a ts ih =>
    intro k h
    by_cases ha : a = leaf
    · exact ⟨k, by rw [leafSearchAux, if_pos ha]⟩
    · have hm : leaf ∈ ts := by
        cases h with
        | head => exact absurd rfl ha
        | tail _ hm => exact hm
      obtain ⟨i, hi⟩ := ih (k + 1) hm
      exact ⟨i, by rw [leafSearchAux, if_neg ha]; exact hi⟩

theorem leafSearch_mem (leaf : F) (T : List F) (h : leaf ∈ T) :
    ∃ i, leafSearch leaf T = some i := leafSearchAux_mem leaf T 0 h

theorem generate_anchored_proof_notfound (c : Collab F K) (inp : ProofInput F)
    (hU : inp.anchor ≠ 0)
    (hP : p_point inp.generator_g inp.secret inp.witness ≠ 0)
    (hfind : leafSearch (honest_leaf c inp) inp.tree = none) :
    generate_anchored_proof c inp = .error .witnessNotEnrolled := by
  rw [generate_anchored_proof, xlimbs_of_ne c hU, xlimbs_of_ne c hP]
  simp only [Except.bind]
  rw [show (c.pos [(LEAVES_POSEIDON_DOMAIN : F),
    (c.split (c.X inp.anchor)).1, (c.split (c.X inp.anchor)).2,
    (c.split (c.X (p_point inp.generator_g inp.secret inp.witness))).1,
    (c.split (c.X (p_point inp.generator_g inp.secret inp.witness))).2])
    = honest_leaf c inp from rfl, hfind]
  rfl

theorem toBytesLE_length : ∀ (w n : Nat), (toBytesLE w n).length = w := by
  intro w
  induction w with
  | zero => intro n; rfl
  | succ m ih => intro n; simp [toBytesLE, ih]

theorem toBytesLE_add : ∀ (a b n : Nat),
    toBytesLE (a + b) n = toBytesLE a n ++ toBytesLE b (n / 256 ^ a) := by
  intro a
  induction a with
  | zero =>
    intro b n
    simp [toBytesLE, Nat.pow_zero, Nat.div_one]
  | succ m ih =>
    intro b n
    have hsum : m + 1 + b = (m + b) + 1 := by omega
    rw [hsum, toBytesLE, toBytesLE, ih b (n / 256), List.cons_append]
    have hdiv : n / 256 / 256 ^ m = n / 256 ^ (m + 1) := by
      rw [Nat.div_div_eq_div_mul, pow_succ, mul_comm (256 ^ m) 256]
    rw [hdiv]

theorem fromBytesLE_toBytesLE : ∀ (w n : Nat),
    fromBytesLE (toBytesLE w n) = n % 256 ^ w := by
  intro w
  induction w with
  | zero => intro n; simp [toBytesLE, fromBytesLE, Nat.mod_one]
  | succ m ih =>
    intro n
    rw [toBytesLE, fromBytesLE, ih (n / 256)]
    rw [pow_succ, mul_comm (256 ^ m) 256, Nat.mod_mul]

theorem toBytesLE_mod : ∀ (w n : Nat), toBytesLE w (n % 256 ^ w) = toBytesLE w n := by
  intro w
  induction w with
  | zero => intro n; rfl
  | succ m ih =>
    intro n
    have hdvd : (256 : Nat) ∣ 256 ^ (m + 1) := dvd_pow_self 256 (Nat.succ_ne_zero m)
    rw [toBytesLE, toBytesLE, Nat.mod_mod_of_dvd n hdvd]
    have hq : n % 256 ^ (m + 1) / 256 = n / 256 % 256 ^ m := by
      rw [pow_succ, mul_comm (256 ^ m) 256]
      exact Nat.mod_mul_right_div_self n 256 (256 ^ m)
    rw [hq, ih (n / 256)]

theorem toBytesLE_take (a b n : Nat) : (toBytesLE (a + b) n).take a = toBytesLE a n := by
  rw [toBytesLE_add]
  have h := toBytesLE_length a n
  calc (toBytesLE a n ++ toBytesLE b (n / 256 ^ a)).take a
      = (toBytesLE a n ++ toBytesLE b (n / 256 ^ a)).take (toBytesLE a n).length := by
        rw [h]
    _ = toBytesLE a n := List.take_left _ _

theorem toBytesLE_drop (a b n : Nat) :
    (toBytesLE (a + b) n).drop a = toBytesLE b (n / 256 ^ a) := by
  rw [toBytesLE_add]
  have h := toBytesLE_length a n
  calc (toBytesLE a n ++ toBytesLE b (n / 256 ^ a)).drop a
      = (toBytesLE a n ++ toBytesLE b (n / 256 ^ a)).drop (toBytesLE a n).length := by
        rw [h]
    _ = toBytesLE b (n / 256 ^ a) := List.drop_left _ _

end Lemmas

section Claims

/-- Claim C1: for every honestly generated proof (any inputs on which
generate_anchored_proof succeeds), with anchor U = B^s, the emitted
DLEQ response satisfies z = rho + e * s in exact scalar-field
arithmetic, where rho is the sampled nonce (the first draw of the
test_rng stream) and e is the Hash8 challenge over the split
x-coordinates of (U, C-modified, R1, R2); consequently the
spec-modelled verifier accepts both DLEQ equations B^z == R1 * U^e and
C^z == R2 * (C-modified)^e. -/
theorem C1_dleq_correct (F K : Type) [Field F] [DecidableEq F]
    (c : Collab F K) (inp : ProofInput F) (bundle : AnchoredProof F)
    (hok : generate_anchored_proof c inp = .ok bundle)
    (hanchor : inp.anchor = inp.secret * inp.generator_b) :
    bundle.dleq_proof.response =
      c.rng 0 + dleq_challenge c inp.anchor bundle.modified_commitment
        bundle.dleq_proof.r_commitment_1 bundle.dleq_proof.r_commitment_2 * inp.secret
    ∧ verify_dleq c inp.generator_b bundle.commitment inp.anchor
        bundle.modified_commitment bundle.dleq_proof = true := by
  obtain ⟨hU, hP, hM, hR1, hR2, hPB, hR, hS, hb⟩ :=
    generate_anchored_proof_inv c inp hok
  rw [hb]
  constructor
  · simp [honest_bundle]
  · rw [verify_dleq]
    simp only [honest_bundle]
    rw [xlimbs_of_ne c hU, xlimbs_of_ne c hM, xlimbs_of_ne c hR1, xlimbs_of_ne c hR2]
    simp only [Bool.and_eq_true, decide_eq_true_eq]
    constructor
    · rw [show (c.pos [(c.split (c.X inp.anchor)).1, (c.split (c.X inp.anchor)).2,
        (c.split (c.X (modified_commitment inp.secret (pedersen_commitment
          inp.generator_g inp.generator_h inp.witness inp.blinding)))).1,
        (c.split (c.X (modified_commitment inp.secret (pedersen_commitment
          inp.generator_g inp.generator_h inp.witness inp.blinding)))).2,
        (c.split (c.X (c.rng 0 * inp.generator_b))).1,
        (c.split (c.X (c.rng 0 * inp.generator_b))).2,
        (c.split (c.X (c.rng 0 * pedersen_commitment
          inp.generator_g inp.generator_h inp.witness inp.blinding))).1,
        (c.split (c.X (c.rng 0 * pedersen_commitment
          inp.generator_g inp.generator_h inp.witness inp.blinding))).2])
        = dleq_challenge c inp.anchor
            (modified_commitment inp.secret (pedersen_commitment
              inp.generator_g inp.generator_h inp.witness inp.blinding))
            (c.rng 0 * inp.generator_b)
            (c.rng 0 * pedersen_commitment
              inp.generator_g inp.generator_h inp.witness inp.blinding)
        from rfl]
      rw [hanchor]
      ring
    · rw [show (c.pos [(c.split (c.X inp.anchor)).1, (c.split (c.X inp.anchor)).2,
        (c.split (c.X (modified_commitment inp.secret (pedersen_commitment
          inp.generator_g inp.generator_h inp.witness inp.blinding)))).1,
        (c.split (c.X (modified_commitment inp.secret (pedersen_commitment
          inp.generator_g inp.generator_h inp.witness inp.blinding)))).2,
        (c.split (c.X (c.rng 0 * inp.generator_b))).1,
        (c.split (c.X (c.rng 0 * inp.generator_b))).2,
        (c.split (c.X (c.rng 0 * pedersen_commitment
          inp.generator_g inp.generator_h inp.witness inp.blinding))).1,
        (c.split (c.X (c.rng 0 * pedersen_commitment
          inp.generator_g inp.generator_h inp.witness inp.blinding))).2])
        = dleq_challenge c inp.anchor
            (modified_commitment inp.secret (pedersen_commitment
              inp.generator_g inp.generator_h inp.witness inp.blinding))
            (c.rng 0 * inp.generator_b)
            (c.rng 0 * pedersen_commitment
              inp.generator_g inp.generator_h inp.witness inp.blinding)
        from rfl]
      simp only [modified_commitment]
      ring

/-- Witness for C1 on a concrete honest run over the small model
field. -/
theorem C1_witness :
    bundleEx.dleq_proof.response =
      cEx.rng 0 + dleq_challenge cEx inpEx.anchor bundleEx.modified_commitment
        bundleEx.dleq_proof.r_commitment_1 bundleEx.dleq_proof.r_commitment_2 * inpEx.secret
    ∧ verify_dleq cEx inpEx.generator_b bundleEx.commitment inpEx.anchor
        bundleEx.modified_commitment bundleEx.dleq_proof = true :=
  C1_dleq_correct Fw Fw cEx inpEx bundleEx (by decide) (by decide)

/-- Claim C2 is refuted by the code: both generate_dleq_proof and
generate_schnorr_proof construct ark_std::test_rng() internally, a
deterministic generator with a fixed seed, so the nonce of every
invocation is the same input-independent constant c.rng 0 (first
element of the fixed stream): the DLEQ nonces of any two invocations
coincide, the Schnorr nonce coincides with the DLEQ nonce of the same
invocation, and secret_setup is that same deterministic constant.  The
theorem makes the reused nonce observable through the emitted
commitments R1 = nonce * base and R = nonce * base of any two
successful runs with arbitrary distinct inputs. -/
theorem C2_nonce_determinism (F K : Type) [Field F] [DecidableEq F] (c : Collab F K)
    (s1 g1 g2 p1 p2 s2 g3 g4 p3 p4 sg gen pub : F) :
    (∀ prf : DLEQProof F, generate_dleq_proof c s1 g1 g2 p1 p2 = .ok prf →
        prf.r_commitment_1 = c.rng 0 * g1) ∧
    (∀ prf : DLEQProof F, generate_dleq_proof c s2 g3 g4 p3 p4 = .ok prf →
        prf.r_commitment_1 = c.rng 0 * g3) ∧
    (∀ prf : SchnorrProof F, generate_schnorr_proof c sg gen pub = .ok prf →
        prf.commitment = c.rng 0 * gen) ∧
    secret_setup c = c.rng 0 := by
  refine ⟨?_, ?_, ?_, rfl⟩
  · intro prf h
    rw [(generate_dleq_proof_inv c h).2.2.2.2]
  · intro prf h
    rw [(generate_dleq_proof_inv c h).2.2.2.2]
  · intro prf h
    rw [(generate_schnorr_proof_inv c h).2.2]

/-- Witness for C2: a concrete successful DLEQ run whose emitted R1 is
the fixed nonce times the base. -/
theorem C2_witness : (⟨3, 5, 1⟩ : DLEQProof Fw).r_commitment_1 = cEx.rng 0 * 3 :=
  (C2_nonce_determinism Fw Fw cEx 2 3 5 7 11 2 3 5 7 11 1 1 1).1 ⟨3, 5, 1⟩ (by decide)

/-- Claim C3: for every honestly generated proof, with public_blinding
recomputed from the bundle as C-modified minus P, the Schnorr response
satisfies z = rho + e * (s * r) where e is the Hash4 challenge over the
split x-coordinates of (public_blinding, R); consequently the
spec-modelled verifier accepts the Schnorr equation
H^z == R * public_blinding^e. -/
theorem C3_schnorr_correct (F K : Type) [Field F] [DecidableEq F]
    (c : Collab F K) (inp : ProofInput F) (bundle : AnchoredProof F)
    (hok : generate_anchored_proof c inp = .ok bundle) :
    bundle.schnorr_proof.response =
      c.rng 0 + schnorr_challenge c (bundle.modified_commitment - bundle.p_point)
        bundle.schnorr_proof.commitment * (inp.secret * inp.blinding)
    ∧ verify_schnorr c inp.generator_h bundle.modified_commitment bundle.p_point
        bundle.schnorr_proof = true := by
  obtain ⟨hU, hP, hM, hR1, hR2, hPB, hR, hS, hb⟩ :=
    generate_anchored_proof_inv c inp hok
  rw [hb]
  constructor
  · simp [honest_bundle]
  · rw [verify_schnorr]
    simp only [honest_bundle]
    rw [xlimbs_of_ne c (show modified_commitment inp.secret (pedersen_commitment
        inp.generator_g inp.generator_h inp.witness inp.blinding)
        - p_point inp.generator_g inp.secret inp.witness ≠ 0 from hPB),
      xlimbs_of_ne c hR]
    simp only [decide_eq_true_eq]
    rw [show (c.pos [(c.split (c.X (modified_commitment inp.secret (pedersen_commitment
        inp.generator_g inp.generator_h inp.witness inp.blinding)
        - p_point inp.generator_g inp.secret inp.witness))).1,
        (c.split (c.X (modified_commitment inp.secret (pedersen_commitment
        inp.generator_g inp.generator_h inp.witness inp.blinding)
        - p_point inp.generator_g inp.secret inp.witness))).2,
        (c.split (c.X (c.rng 0 * inp.generator_h))).1,
        (c.split (c.X (c.rng 0 * inp.generator_h))).2])
        = schnorr_challenge c (modified_commitment inp.secret (pedersen_commitment
            inp.generator_g inp.generator_h inp.witness inp.blinding)
            - p_point inp.generator_g inp.secret inp.witness)
            (c.rng 0 * inp.generator_h)
        from rfl]
    rw [show modified_commitment inp.secret (pedersen_commitment
        inp.generator_g inp.generator_h inp.witness inp.blinding)
        - p_point inp.generator_g inp.secret inp.witness
        = (inp.secret * inp.blinding) * inp.generator_h from
      public_blinding_eq inp.generator_g inp.generator_h
        inp.secret inp.witness inp.blinding]
    ring

/-- Witness for C3 on the same concrete honest run. -/
theorem C3_witness :
    bundleEx.schnorr_proof.response =
      cEx.rng 0 + schnorr_challenge cEx (bundleEx.modified_commitment - bundleEx.p_point)
        bundleEx.schnorr_proof.commitment * (inpEx.secret * inpEx.blinding)
    ∧ verify_schnorr cEx inpEx.generator_h bundleEx.modified_commitment bundleEx.p_point
        bundleEx.schnorr_proof = true :=
  C3_schnorr_correct Fw Fw cEx inpEx bundleEx (by decide)

/-- Claim C4: for every secret s, witness w, blinding r and any
generators g and h (in particular the protocol ones), the value
public_blinding = C-modified minus P computed during proof generation,
where C = g^w * h^r, C-modified = C^s and P = g^(s*w), equals h^(s*r)
exactly as a group-element identity. -/
theorem C4_public_blinding (F : Type) [Field F] [DecidableEq F] (g h s w r : F) :
    public_blinding g h s w r = (s * r) * h :=
  public_blinding_eq g h s w r

/-- Claim C5 (amended): for a tree built by tree_setup with the
canonical generator and anchor B^secret, and provided additionally that
the blinding is nonzero, the Pedersen commitment is not the identity,
the sampled nonce and generators H and B are nonzero, every index of
[1, 2^range] is nonzero in the scalar field, and the tree leaves are
pairwise distinct (collision-freeness of the Poseidon collaborator on
the enrolled inputs): proof generation succeeds for every integer
witness w with 1 <= w <= 2^range, returning a Merkle inclusion proof
generated for leaf index w - 1, and for every witness whose derived
leaf matches no tree leaf the generation fails with witnessNotEnrolled
and no bundle is returned. -/
theorem C5_enrollment (F K : Type) [Field F] [DecidableEq F] (c : Collab F K)
    (range : Nat) (s bl g2 g3 : F) (T : List F)
    (hs : s ≠ 0) (hbl : bl ≠ 0) (hg2 : g2 ≠ 0) (hg3 : g3 ≠ 0)
    (hrng : c.rng 0 ≠ 0)
    (hx : ∀ j : Nat, 1 ≤ j → j ≤ 2 ^ range → ((j : F)) ≠ 0)
    (htree : tree_setup c range (anchor_setup s g3) s = .ok T)
    (hnd : T.Nodup) :
    (∀ w : Nat, 1 ≤ w → w ≤ 2 ^ range →
      pedersen_commitment (canonical_generator F) g2 ((w : Nat) : F) bl ≠ 0 →
      ∃ bundle, generate_anchored_proof c
          ⟨s, ((w : Nat) : F), bl, canonical_generator F, g2, g3, anchor_setup s g3, T⟩
            = .ok bundle ∧ bundle.merkle_proof = w - 1) ∧
    (∀ wb : F, wb ≠ 0 →
      honest_leaf c ⟨s, wb, bl, canonical_generator F, g2, g3, anchor_setup s g3, T⟩ ∉ T →
      generate_anchored_proof c
          ⟨s, wb, bl, canonical_generator F, g2, g3, anchor_setup s g3, T⟩
        = .error .witnessNotEnrolled) := by
  have hU : anchor_setup s g3 ≠ 0 := by
    rw [anchor_setup]
    exact mul_ne_zero hs hg3
  have hx2 : ∀ j : Nat, 1 ≤ j → j ≤ 2 ^ range →
      ((j : F) * s * canonical_generator F) ≠ 0 := by
    intro j h1 h2
    simp only [canonical_generator, mul_one]
    exact mul_ne_zero (hx j h1 h2) hs
  have hT : T = (List.range (2 ^ range)).map
      (fun i => tree_leaf c (c.split (c.X (anchor_setup s g3))) s (1 + i)) := by
    rw [tree_setup_ok c range _ s hU hx2] at htree
    exact (Except.ok.inj htree).symm
  constructor
  · intro w hw1 hw2 hC
    have harg : p_point (canonical_generator F) s ((w : Nat) : F)
        = ((w : Nat) : F) * s * canonical_generator F := by
      rw [p_point]
      ring
    have hleaf : honest_leaf c
        ⟨s, ((w : Nat) : F), bl, canonical_generator F, g2, g3, anchor_setup s g3, T⟩
        = tree_leaf c (c.split (c.X (anchor_setup s g3))) s w := by
      simp only [honest_leaf, tree_leaf]
      rw [harg]
    have hgets : T[w - 1]? = some (tree_leaf c (c.split (c.X (anchor_setup s g3))) s w) := by
      rw [hT]
      simp only [List.getElem?_map, List.getElem?_range,
        show w - 1 < 2 ^ range from by omega, if_pos, Option.map_some']
      rw [show 1 + (w - 1) = w from by omega]
    have hfind := leafSearch_nodup T (w - 1)
      (tree_leaf c (c.split (c.X (anchor_setup s g3))) s w) hnd hgets
    rw [← hleaf] at hfind
    have hP : p_point (canonical_generator F) s ((w : Nat) : F) ≠ 0 := by
      rw [harg]
      exact hx2 w hw1 hw2
    have hgen := generate_anchored_proof_ok c
      ⟨s, ((w : Nat) : F), bl, canonical_generator F, g2, g3, anchor_setup s g3, T⟩
      (w - 1) hU hP hfind
      (by rw [modified_commitment]; exact mul_ne_zero hs hC)
      (mul_ne_zero hrng hg3)
      (mul_ne_zero hrng hC)
      (by rw [public_blinding_eq]; exact mul_ne_zero (mul_ne_zero hs hbl) hg2)
      (mul_ne_zero hrng hg2)
    exact ⟨_, hgen, rfl⟩
  · intro wb hwb hnotin
    have hP : p_point (canonical_generator F) s wb ≠ 0 := by
      rw [p_point]
      simp only [canonical_generator, mul_one]
      exact mul_ne_zero hs hwb
    exact generate_anchored_proof_notfound c
      ⟨s, wb, bl, canonical_generator F, g2, g3, anchor_setup s g3, T⟩
      hU hP (leafSearch_of_not_mem _ _ hnotin)

/-- Witness for C5 (amended): over the concrete model, range 4, the
boundary witness 16 succeeds with the inclusion proof generated for
index 15, and witness 17 (derived leaf not enrolled) fails with
witnessNotEnrolled. -/
theorem C5_witness :
    (∃ bundle, generate_anchored_proof cEx
        ⟨1, ((16 : Nat) : Fw), 1, canonical_generator Fw, 2, 3, anchor_setup 1 3, treeEx4⟩
          = .ok bundle ∧ bundle.merkle_proof = 15) ∧
    generate_anchored_proof cEx
        ⟨1, (17 : Fw), 1, canonical_generator Fw, 2, 3, anchor_setup 1 3, treeEx4⟩
      = .error .witnessNotEnrolled := by
  have h := C5_enrollment Fw Fw cEx 4 1 1 2 3 treeEx4 (by decide) (by decide) (by decide)
    (by decide) (by decide)
    (by
      intro j h1 h2 hj
      rw [ZMod.natCast_zmod_eq_zero_iff_dvd] at hj
      have := Nat.le_of_dvd (by omega) hj
      omega)
    (by decide) (by decide)
  constructor
  · have h16 := h.1 16 (by omega) (by norm_num) (by decide)
    simpa using h16
  · exact h.2 17 (by decide) (by decide)

/-- Counterexample to claim C5 as stated: over a properly built range-4
tree with enrolled witness 16, taking blinding 0 makes public_blinding
the identity point, so the code panics on the Schnorr x-coordinate
unwrap instead of succeeding: proof generation does not succeed for
every witness in [1, 2^range]. -/
theorem C5_counterexample :
    tree_setup cEx 4 (anchor_setup 1 3) 1 = .ok treeEx4 ∧
    ¬ ∃ bundle, generate_anchored_proof cEx inpEx5 = .ok bundle := by
  refine ⟨by decide, ?_⟩
  rintro ⟨bundle, hb⟩
  have h : generate_anchored_proof cEx inpEx5 = .error .coordFail := by decide
  rw [h] at hb
  cases hb

/-- Claim C6 (amended): for every range whose indices 1..2^range stay
nonzero in the scalar field (on BN254, range up to 253), every
non-identity anchor U and every nonzero secret s, tree_setup produces
exactly 2^range leaves, collected in ascending x order for x from 1 to
2^range inclusive, the leaf for x being Hash5 of the tag 1, the split
x-coordinate of U and the split x-coordinate of p = G^(s*x); and two
calls with identical inputs yield an identical root. -/
theorem C6_tree_shape (F K : Type) [Field F] [DecidableEq F] (c : Collab F K)
    (range : Nat) (U s : F) (hU : U ≠ 0) (hs : s ≠ 0)
    (hx : ∀ j : Nat, 1 ≤ j → j ≤ 2 ^ range → ((j : F)) ≠ 0) :
    ∃ T, tree_setup c range U s = .ok T ∧
      T.length = 2 ^ range ∧
      (∀ i : Nat, i < 2 ^ range →
        T[i]? = some (c.pos [(LEAVES_POSEIDON_DOMAIN : F),
          (c.split (c.X U)).1, (c.split (c.X U)).2,
          (c.split (c.X (((i + 1 : Nat) : F) * s * canonical_generator F))).1,
          (c.split (c.X (((i + 1 : Nat) : F) * s * canonical_generator F))).2])) ∧
      (∀ T2, tree_setup c range U s = .ok T2 → c.rootFn T2 = c.rootFn T) := by
  have hx2 : ∀ j : Nat, 1 ≤ j → j ≤ 2 ^ range →
      ((j : F) * s * canonical_generator F) ≠ 0 := by
    intro j h1 h2
    simp only [canonical_generator, mul_one]
    exact mul_ne_zero (hx j h1 h2) hs
  have hok := tree_setup_ok c range U s hU hx2
  refine ⟨_, hok, by simp, ?_, ?_⟩
  · intro i hi
    simp only [List.getElem?_map, List.getElem?_range, hi, if_pos, Option.map_some']
    rw [show 1 + i = i + 1 from by omega]
    rfl
  · intro T2 h2
    rw [hok] at h2
    rw [← Except.ok.inj h2]

/-- Witness for C6 (amended) at a concrete range-2 instance. -/
theorem C6_witness :
    ∃ T, tree_setup cEx 2 (3 : Fw) 1 = .ok T ∧
      T.length = 2 ^ 2 ∧
      (∀ i : Nat, i < 2 ^ 2 →
        T[i]? = some (cEx.pos [(LEAVES_POSEIDON_DOMAIN : Fw),
          (cEx.split (cEx.X 3)).1, (cEx.split (cEx.X 3)).2,
          (cEx.split (cEx.X (((i + 1 : Nat) : Fw) * 1 * canonical_generator Fw))).1,
          (cEx.split (cEx.X (((i + 1 : Nat) : Fw) * 1 * canonical_generator Fw))).2])) ∧
      (∀ T2, tree_setup cEx 2 (3 : Fw) 1 = .ok T2 → cEx.rootFn T2 = cEx.rootFn T) :=
  C6_tree_shape Fw Fw cEx 2 3 1 (by decide) (by decide)
    (by
      intro j h1 h2 hj
      rw [ZMod.natCast_zmod_eq_zero_iff_dvd] at hj
      have := Nat.le_of_dvd (by omega) hj
      omega)

/-- Counterexample to claim C6 as stated: with secret 0 every p is the
identity point and tree building panics on the x-coordinate unwrap of
the first leaf, producing no leaves at all, so the claim fails for
arbitrary (range, anchor, secret). -/
theorem C6_counterexample : ¬ ∃ T, tree_setup cEx 1 (1 : Fw) 0 = .ok T := by
  rintro ⟨T, hT⟩
  have h : tree_setup cEx 1 (1 : Fw) 0 = .error .coordFail := by decide
  rw [h] at hT
  cases hT

/-- Claim C8 (amended): generator sampling repeatedly hashes
(seed, counter), accepting the first valid non-identity candidate, but
the loop has no iteration cap and the source has no SetupError: after
any number of iterations without an acceptable candidate the loop is
still running, and an invocation terminates exactly when some counter
yields a valid non-identity point, in which case it returns the first
such point. -/
theorem C8_sampler (F : Type) [Field F] [DecidableEq F]
    (cand : Nat → Option F) (fuel ctr : Nat) :
    (sample_nums_generator cand fuel ctr = none ↔
      ∀ i, i < fuel → is_accepted (cand (ctr + i)) = false) ∧
    (∀ p, sample_nums_generator cand fuel ctr = some p →
      p ≠ 0 ∧ ∃ i, i < fuel ∧ cand (ctr + i) = some p ∧
        ∀ j, j < i → is_accepted (cand (ctr + j)) = false) :=
  ⟨sample_none_iff cand fuel ctr, fun p h => sample_some cand fuel ctr p h⟩

/-- Witness for C8 (amended): a stream of identity points is never
accepted (loop still running after the whole fuel), and a stream whose
first two candidates are identities yields the third, nonzero one. -/
theorem C8_witness :
    sample_nums_generator (fun _ => some (0 : Fw)) 3 0 = none ∧
    ((5 : Fw) ≠ 0 ∧ ∃ i, i < 4 ∧
      (fun n => if n < 2 then some (0 : Fw) else some 5) (0 + i) = some 5 ∧
      ∀ j, j < i →
        is_accepted ((fun n => if n < 2 then some (0 : Fw) else some 5) (0 + j)) = false) := by
  constructor
  · exact (C8_sampler Fw (fun _ => some 0) 3 0).1.mpr (by decide)
  · exact (C8_sampler Fw (fun n => if n < 2 then some 0 else some 5) 4 0).2 5 (by decide)

/-- Counterexample to claim C8 as stated: there is no iteration cap at
which sampling stops with a SetupError; with a candidate stream that
never decodes to a point the loop is still running after any number of
iterations, and the source has no SetupError value to return. -/
theorem C8_counterexample :
    ¬ ∃ cap : Nat, ∀ ctr : Nat,
        (sample_nums_generator (fun _ => (none : Option Fw)) cap ctr).isSome = true := by
  rintro ⟨cap, h⟩
  have h0 := h 0
  rw [(sample_none_iff (fun _ => (none : Option Fw)) cap 0).mpr
      (fun i _ => by simp [is_accepted])] at h0
  simp at h0

/-- Claim C9: generator_setup is deterministic per fixed seed pair,
returning the triple (G, second, third) with G the canonical base
point; the sampled points are non-identity by the acceptance test of
the loop; their distinctness from each other and from G is a property
of the externally hashed candidate streams, taken as hypotheses on the
abstracted collaborator. -/
theorem C9_generators (F : Type) [Field F] [DecidableEq F]
    (cand0 cand1 : Nat → Option F) (fuel : Nat) (second third : F)
    (hs0 : sample_nums_generator cand0 fuel 0 = some second)
    (hs1 : sample_nums_generator cand1 fuel 0 = some third)
    (hne : second ≠ third) (hg2 : second ≠ canonical_generator F)
    (hg3 : third ≠ canonical_generator F) :
    generator_setup cand0 cand1 fuel = some (canonical_generator F, second, third) ∧
    canonical_generator F ≠ 0 ∧ second ≠ 0 ∧ third ≠ 0 ∧
    canonical_generator F ≠ second ∧ canonical_generator F ≠ third ∧ second ≠ third := by
  refine ⟨?_, ?_, (sample_some cand0 fuel 0 second hs0).1,
    (sample_some cand1 fuel 0 third hs1).1,
    fun hc => hg2 hc.symm, fun hc => hg3 hc.symm, hne⟩
  · rw [generator_setup, hs0, hs1]
  · simp [canonical_generator]

/-- Witness for C9 on concrete candidate streams, the first of which
has its initial candidate rejected as the identity. -/
theorem C9_witness :
    generator_setup (fun n => if n = 0 then some (0 : Fw) else some 7)
        (fun _ => some (9 : Fw)) 5 = some (canonical_generator Fw, 7, 9) ∧
    canonical_generator Fw ≠ 0 ∧ (7 : Fw) ≠ 0 ∧ (9 : Fw) ≠ 0 ∧
    canonical_generator Fw ≠ 7 ∧ canonical_generator Fw ≠ 9 ∧ (7 : Fw) ≠ 9 :=
  C9_generators Fw (fun n => if n = 0 then some 0 else some 7) (fun _ => some 9) 5 7 9
    (by decide) (by decide) (by decide) (by decide) (by decide)

/-- Claim C10 (amended): the x-coordinate extractions fault neither in
proof generation nor in tree building, provided that in addition to the
nonzero secret and witness, non-identity anchor and enrolled derived
leaf of the claim, the blinding, the Pedersen commitment, the sampled
nonce and the generators are nonzero (without these, public_blinding,
R1, R2, R or the modified commitment can be the identity and the
unwrap inside the DLEQ or Schnorr routine panics), and, for tree
building, that every index of [1, 2^range] stays nonzero in the scalar
field (on BN254, range up to 253). -/
theorem C10_no_coord_fault (F K : Type) [Field F] [DecidableEq F] (c : Collab F K)
    (inp : ProofInput F) (range : Nat) (U s : F)
    (hs : inp.secret ≠ 0) (hw : inp.witness ≠ 0) (hU : inp.anchor ≠ 0)
    (hg : inp.generator_g ≠ 0) (hh : inp.generator_h ≠ 0) (hb : inp.generator_b ≠ 0)
    (hbl : inp.blinding ≠ 0)
    (hC : pedersen_commitment inp.generator_g inp.generator_h inp.witness inp.blinding ≠ 0)
    (hrng : c.rng 0 ≠ 0)
    (hmem : honest_leaf c inp ∈ inp.tree)
    (hU2 : U ≠ 0) (hs2 : s ≠ 0)
    (hx : ∀ j : Nat, 1 ≤ j → j ≤ 2 ^ range → ((j : F)) ≠ 0) :
    (∃ bundle, generate_anchored_proof c inp = .ok bundle) ∧
    (∃ T, tree_setup c range U s = .ok T) := by
  obtain ⟨i, hfind⟩ := leafSearch_mem _ _ hmem
  refine ⟨⟨honest_bundle c inp i,
    generate_anchored_proof_ok c inp i hU ?_ hfind ?_ ?_ ?_ ?_ ?_⟩, ?_⟩
  · rw [p_point]
    exact mul_ne_zero (mul_ne_zero hs hw) hg
  · rw [modified_commitment]
    exact mul_ne_zero hs hC
  · exact mul_ne_zero hrng hb
  · exact mul_ne_zero hrng hC
  · rw [public_blinding_eq]
    exact mul_ne_zero (mul_ne_zero hs hbl) hh
  · exact mul_ne_zero hrng hh
  · refine ⟨_, tree_setup_ok c range U s hU2 ?_⟩
    intro j h1 h2
    simp only [canonical_generator, mul_one]
    exact mul_ne_zero (hx j h1 h2) hs2

/-- Witness for C10 (amended) on the concrete honest instance. -/
theorem C10_witness :
    (∃ bundle, generate_anchored_proof cEx inpEx = .ok bundle) ∧
    (∃ T, tree_setup cEx 2 (3 : Fw) 1 = .ok T) :=
  C10_no_coord_fault Fw Fw cEx inpEx 2 3 1 (by decide) (by decide) (by decide)
    (by decide) (by decide) (by decide) (by decide) (by decide) (by decide)
    (by decide) (by decide) (by decide)
    (by
      intro j h1 h2 hj
      rw [ZMod.natCast_zmod_eq_zero_iff_dvd] at hj
      have := Nat.le_of_dvd (by omega) hj
      omega)

/-- Counterexample to claim C10 as stated.  First conjunct: inpEx10 has
nonzero secret and witness, non-identity anchor and an enrolled derived
leaf, yet generation faults on coordinate extraction because the zero
blinding makes public_blinding the identity.  Second conjunct: tree
building with nonzero secret and non-identity anchor faults once the
enumerated index reaches the scalar-field order (here 101 <= 2^7 over
the model field; on BN254 the same happens at range 254), since that
index times the secret is the identity exponent. -/
theorem C10_counterexample :
    generate_anchored_proof cEx inpEx10 = .error .coordFail ∧
    tree_setup cEx 7 (3 : Fw) 1 = .error .coordFail :=
  ⟨by decide, by decide⟩

/-- Claim C7: for every valid base-field coordinate x (the BN254
coordinate field fits in 32 bytes), split_fq_to_fr returns two
exponent-field elements (low, high) such that concatenating the
16-byte little-endian encoding of low with the 16-byte little-endian
encoding of high exactly reconstructs the original 32-byte
little-endian encoding of x; the mapping is total and deterministic (a
Lean function) and reversible: reconstruct_fq (split_fq_to_fr x) = x
for all x. -/
theorem C7_split_reconstruct (x : Fqc) :
    (split_fq_to_fr x).length = 2 ∧
    (toBytesLE 32 ((split_fq_to_fr x).getD 0 0).val).take 16 ++
      (toBytesLE 32 ((split_fq_to_fr x).getD 1 0).val).take 16 = toBytesLE 32 x.val ∧
    reconstruct_fq (split_fq_to_fr x) = x := by
  have h256r : (256 : Nat) ^ 16 < bn254_r := by decide
  have hq : bn254_q ≤ 256 ^ 16 * 256 ^ 16 := by decide
  have hxval : x.val < bn254_q := ZMod.val_lt x
  have htake : ∀ m : Nat, (toBytesLE 32 m).take 16 = toBytesLE 16 m :=
    fun m => toBytesLE_take 16 16 m
  have hdrop : (toBytesLE 32 x.val).drop 16 = toBytesLE 16 (x.val / 256 ^ 16) :=
    toBytesLE_drop 16 16 x.val
  have hsplit : split_fq_to_fr x =
      [((fromBytesLE (toBytesLE 16 x.val) : Nat) : Frc),
       ((fromBytesLE (toBytesLE 16 (x.val / 256 ^ 16)) : Nat) : Frc)] := by
    simp only [split_fq_to_fr]
    rw [htake x.val, hdrop]
  have hdivlt : x.val / 256 ^ 16 < 256 ^ 16 := by
    apply (Nat.div_lt_iff_lt_mul (by norm_num)).mpr
    exact lt_of_lt_of_le hxval hq
  have hfromlow : fromBytesLE (toBytesLE 16 x.val) = x.val % 256 ^ 16 :=
    fromBytesLE_toBytesLE 16 x.val
  have hfromhigh : fromBytesLE (toBytesLE 16 (x.val / 256 ^ 16)) = x.val / 256 ^ 16 := by
    rw [fromBytesLE_toBytesLE]
    exact Nat.mod_eq_of_lt hdivlt
  have hlowval : (((fromBytesLE (toBytesLE 16 x.val) : Nat) : Frc)).val
      = x.val % 256 ^ 16 := by
    rw [hfromlow, ZMod.val_natCast]
    exact Nat.mod_eq_of_lt (lt_trans (Nat.mod_lt _ (by norm_num)) h256r)
  have hhighval : (((fromBytesLE (toBytesLE 16 (x.val / 256 ^ 16)) : Nat) : Frc)).val
      = x.val / 256 ^ 16 := by
    rw [hfromhigh, ZMod.val_natCast]
    exact Nat.mod_eq_of_lt (lt_trans hdivlt h256r)
  have hbytes : (toBytesLE 32 ((split_fq_to_fr x).getD 0 0).val).take 16 ++
      (toBytesLE 32 ((split_fq_to_fr x).getD 1 0).val).take 16 = toBytesLE 32 x.val := by
    rw [hsplit]
    simp only [List.getD_cons_zero, List.getD_cons_succ]
    rw [hlowval, hhighval, htake, htake, toBytesLE_mod 16 x.val,
      ← toBytesLE_add 16 16 x.val]
  refine ⟨by rw [hsplit]; rfl, hbytes, ?_⟩
  simp only [reconstruct_fq]
  rw [hbytes, fromBytesLE_toBytesLE]
  have hm : x.val % 256 ^ 32 = x.val := by
    apply Nat.mod_eq_of_lt
    apply lt_of_lt_of_le hxval
    calc bn254_q ≤ 256 ^ 16 * 256 ^ 16 := hq
      _ = 256 ^ 32 := by norm_num
  rw [hm]
  exact ZMod.natCast_rightInverse x

end Claims

end AnchoredMerkle
